import Mathlib

/-!
Verification of the comment-extraction core of vscode-google-translate.

Shallow embedding of the server-side `Comment` class (cache, settings,
`getComment`) and of the client helpers in `extension.ts`
(`updateLanguageList`, `getTranslationPromise`, the `selectionContains`
request handler).  External collaborators (the TextMate grammar registry,
the `CommentParse.computeText` pipeline, the Google translation call, the
`humanize-string` and `camelcase` libraries) that live outside the given
sources are either taken as parameters or modelled from the spec, as noted
on each definition.
-/

/-- A zero-based line/character position, as in the LSP and VS Code APIs. -/
structure Position where
  line : Nat
  character : Nat
deriving DecidableEq, Repr

/-- A source range delimited by two positions. -/
structure SrcRange where
  start : Position
  «end» : Position
deriving DecidableEq, Repr

/-- An editor selection, normalised so that `start ≤ end` as VS Code guarantees. -/
structure Selection where
  start : Position
  «end» : Position
deriving DecidableEq, Repr

/-- Position order used by VS Code `Range.contains`. -/
def Position.leb (a b : Position) : Bool :=
  Nat.blt a.line b.line || (a.line == b.line && Nat.ble a.character b.character)

/-- VS Code `Selection.isEmpty`: the selection spans no characters. -/
def Selection.isEmptySel (s : Selection) : Bool :=
  s.start == s.«end»

/-- VS Code `Selection.contains(position)`: start ≤ position ≤ end. -/
def Selection.containsPos (s : Selection) (p : Position) : Bool :=
  Position.leb s.start p && Position.leb p s.«end»

/-- The identity of a text document as the server sees it. -/
structure TextDocument where
  uri : String
  languageId : String
deriving DecidableEq, Repr

/-- LSP `TextDocumentIdentifier`. -/
structure TextDocumentIdentifier where
  uri : String
deriving DecidableEq, Repr

/-- LSP `TextDocumentPositionParams` as received by `getComment`. -/
structure TextDocumentPositionParams where
  textDocument : TextDocumentIdentifier
  position : Position
deriving DecidableEq, Repr

/-- A comment block as produced by the pipeline or by the host's
`selectionContains` handler.  The handler supplies no `humanize` field, so a
missing (JavaScript `undefined`, falsy) flag is modelled as `false`. -/
structure ICommentBlock where
  range : SrcRange
  comment : String
  humanize : Bool := false
deriving DecidableEq, Repr

/-- The hover returned by `getComment`: a list of content strings plus the
range of the translated block. -/
structure Hover where
  contents : List String
  range : SrcRange
deriving DecidableEq, Repr

/-- A TextMate grammar handle.  Its internals (`syntax/TextMateService`) are
outside the given sources; only its presence or absence per language id
matters here, so it is kept as an opaque-looking token. -/
structure IGrammar where
  scopeName : String
deriving DecidableEq, Repr

/-- The settings record stored by the `Comment` class (`ICommentTranslateSettings`).
An absent (JavaScript falsy) `preferredLanguage` is modelled as `""`. -/
structure ICommentTranslateSettings where
  multiLineMerge : Bool
  preferredLanguage : String
deriving DecidableEq, Repr

/-- An entry of the `languages.js` list: a display name and a language code. -/
structure LanguageEntry where
  name : String
  value : String
deriving DecidableEq, Repr

/-- The `CommentParse` object cached per document.  Its tokenisation
internals (`syntax/CommentParse`) are outside the given sources; the model
records exactly the constructor arguments the server passes in
(`new CommentParse(textDocument, grammar, this._setting.multiLineMerge)`),
which is all the cached state the claims depend on. -/
structure CommentParse where
  doc : TextDocument
  grammar : IGrammar
  multiLineMerge : Bool
deriving DecidableEq, Repr

/-- The mutable state of the `Comment` class: the settings record and the
per-document parse cache (a JavaScript `Map` from key strings to parses,
modelled as its lookup function). -/
structure CommentState where
  setting : ICommentTranslateSettings
  commentParseCache : String → Option CommentParse

/-- The cache key built by `_removeCommentParse` and `_getCommentParse`:
the template string `` `${textDocument.languageId}-${textDocument.uri}` ``. -/
def cacheKey (textDocument : TextDocument) : String :=
  textDocument.languageId ++ "-" ++ textDocument.uri

/-- `Comment.setSetting`.  Takes the `languages.js` list as a parameter.
Step 1: a falsy `preferredLanguage` on the new setting is replaced by the
stored one.  Step 2: `Object.assign` overwrites both fields.  Step 3: the
stored `preferredLanguage` is replaced by the `value` of the language whose
`name` it matches, or `"en"` when none matches. -/
def setSetting (languages : List LanguageEntry) (s : CommentState)
    (newSetting : ICommentTranslateSettings) : CommentState :=
  let ns := if newSetting.preferredLanguage = "" then
      { newSetting with preferredLanguage := s.setting.preferredLanguage }
    else newSetting
  let assigned : ICommentTranslateSettings :=
    { multiLineMerge := ns.multiLineMerge, preferredLanguage := ns.preferredLanguage }
  let pl := match languages.find? (fun element => element.name == assigned.preferredLanguage) with
    | some element => element.value
    | none => "en"
  { s with setting := { assigned with preferredLanguage := pl } }

/-- `Comment._removeCommentParse`: deletes the document's key from the cache.
Wired in the constructor to both `onDidClose` and `onDidChangeContent`. -/
def _removeCommentParse (s : CommentState) (textDocument : TextDocument) : CommentState :=
  { s with commentParseCache := fun k =>
      if k = cacheKey textDocument then none else s.commentParseCache k }

/-- `Comment._getCommentParse`.  `grammars` stands for
`TextMateService.createGrammar` (the Grammar Registry, outside the given
sources): it yields the grammar registered for a language id, or `none`.
On a cache hit the cached parse is returned unchanged; on a miss with a
grammar a fresh parse is constructed with the current `multiLineMerge`
setting and stored. -/
def _getCommentParse (grammars : String → Option IGrammar) (s : CommentState)
    (textDocument : TextDocument) : Option CommentParse × CommentState :=
  let key := cacheKey textDocument
  match s.commentParseCache key with
  | some p => (some p, s)
  | none =>
    match grammars textDocument.languageId with
    | none => (none, s)
    | some grammar =>
      let parse : CommentParse := ⟨textDocument, grammar, s.setting.multiLineMerge⟩
      (some parse,
        { s with commentParseCache := fun k => if k = key then some parse else s.commentParseCache k })

/-- Modelled from the spec: the external `humanize-string` collaborator
word-splits an identifier-like string into space-separated words
(underscores and hyphens become spaces), e.g. `do_it_now ↦ do it now`. -/
def humanizeString (s : String) : String :=
  ⟨s.data.map (fun c => if c = '_' ∨ c = '-' then ' ' else c)⟩

/-- `Comment.getComment`.  Parameters stand for the injected collaborators:
`grammars` for the Grammar Registry, `documents` for `TextDocuments.get`,
`hostSelection` for the `selectionContains` request to the host editor,
`computeText` for the `CommentParse.computeText` locate/merge/extract
pipeline (outside the given sources), and `tr` for the translation service.
Returns the hover (or `none`) together with the updated state. -/
def getComment (grammars : String → Option IGrammar)
    (documents : String → Option TextDocument)
    (hostSelection : TextDocumentPositionParams → Option ICommentBlock)
    (computeText : CommentParse → Position → Option ICommentBlock)
    (tr : String → String)
    (s : CommentState) (q : TextDocumentPositionParams) : Option Hover × CommentState :=
  match documents q.textDocument.uri with
  | none => (none, s)
  | some textDocument =>
    match _getCommentParse grammars s textDocument with
    | (none, s1) => (none, s1)
    | (some parse, s1) =>
      let block := match hostSelection q with
        | some b => some b
        | none => computeText parse q.position
      match block with
      | none => (none, s1)
      | some b =>
        if b.humanize then
          let h := humanizeString b.comment
          (some { contents := [h ++ " => " ++ tr h], range := b.range }, s1)
        else
          (some { contents := [tr b.comment], range := b.range }, s1)

/-- The host editor's state seen by the `selectionContains` handler in
`extension.ts`: the active editor's document (with its text accessor) and
its current selections. -/
structure EditorState where
  uri : String
  getText : Selection → String
  selections : List Selection

/-- The `selectionContains` request handler registered in `extension.ts`
(`client.onRequest("selectionContains", ...)`).  It answers with a block
only when there is an active editor whose document URI matches the query
and some non-empty selection contains the queried position; the block
carries the selection as range and the selected text as comment. -/
def selectionContains (activeTextEditor : Option EditorState)
    (textDocumentPosition : TextDocumentPositionParams) : Option ICommentBlock :=
  match activeTextEditor with
  | none => none
  | some editor =>
    if editor.uri = textDocumentPosition.textDocument.uri then
      let position : Position :=
        ⟨textDocumentPosition.position.line, textDocumentPosition.position.character⟩
      match editor.selections.find? (fun selection =>
          !selection.isEmptySel && selection.containsPos position) with
      | some selection => some { range := ⟨selection.start, selection.«end»⟩,
                                 comment := editor.getText selection }
      | none => none
    else none

/-- JavaScript `Array.prototype.findIndex`: the index of the first element
satisfying the predicate, or `none` (for `-1`). -/
def findIndex (p : α → Bool) : List α → Option Nat
  | [] => none
  | a :: l => if p a then some 0 else (findIndex p l).map (· + 1)

/-- `updateLanguageList` from `extension.ts`: remove the first occurrence of
the selected language from the recently-used list (`splice(index, 1)` after
`findIndex`), then insert it at the front (`splice(0, 0, selectedLanguage)`). -/
def updateLanguageList (selectedLanguage : String) (recentlyUsed : List String) : List String :=
  let removed := match findIndex (fun r => r == selectedLanguage) recentlyUsed with
    | some index => recentlyUsed.eraseIdx index
    | none => recentlyUsed
  selectedLanguage :: removed

/-- `getTranslationPromise` from `extension.ts`.  `tr` stands for the
external `translate` call (proxy transport elided: it does not change the
returned value), `camel` for the external `camelcase` library.  The result
pairs the promise outcome (`Except` for resolve/reject) with the list of
texts sent to `translate`, in call order, so that issued translation
requests are observable. -/
def getTranslationPromise (tr : String → String) (camel : String → String)
    (selectedText : String) (selection : Selection) :
    Except String (Selection × String) × List String :=
  let t1 := tr selectedText
  if t1 ≠ "" then
    if t1 = selectedText then
      let h := humanizeString selectedText
      let t2 := tr h
      if t2 ≠ "" ∧ t1 ≠ "" then
        (.ok (selection, camel t1), [selectedText, h])
      else
        (.error "Google Translation API issue", [selectedText, h])
    else
      (.ok (selection, t1), [selectedText])
  else
    (.error "Google Translation API issue", [selectedText])

/-! Concrete environments used by counterexamples and witnesses. -/

/-- Grammar registry registering only language id `a` (note: `a-b` has none). -/
def collideGrammars : String → Option IGrammar :=
  fun languageId => if languageId = "a" then some ⟨"source.a"⟩ else none

/-- Two open documents whose cache keys collide: `a` + `-` + `b-c` and
`a-b` + `-` + `c` both yield the key `a-b-c`. -/
def collideDocuments : String → Option TextDocument :=
  fun uri => if uri = "b-c" then some ⟨"b-c", "a"⟩
    else if uri = "c" then some ⟨"c", "a-b"⟩ else none

/-- A pipeline that finds a comment block at every position. -/
def collideComputeText : CommentParse → Position → Option ICommentBlock :=
  fun _ _ => some ⟨⟨⟨0, 0⟩, ⟨0, 5⟩⟩, "hello", false⟩

/-- Initial state: empty cache, default settings. -/
def collideState0 : CommentState := ⟨⟨false, "en"⟩, fun _ => none⟩

/-- State after a first query on the document with uri `b-c` (language `a`),
which populates the cache under key `a-b-c`. -/
def collideState1 : CommentState :=
  (getComment collideGrammars collideDocuments (fun _ => none) collideComputeText
    (fun t => t) collideState0 ⟨⟨"b-c"⟩, ⟨0, 0⟩⟩).2

/-- A document whose language id has a registered grammar. -/
def settingDoc : TextDocument := ⟨"file:a.js", "js"⟩

/-- Grammar registry registering only language id `js`. -/
def settingGrammars : String → Option IGrammar :=
  fun languageId => if languageId = "js" then some ⟨"source.js"⟩ else none

/-- Initial state with `multiLineMerge = false`. -/
def settingState0 : CommentState := ⟨⟨false, "en"⟩, fun _ => none⟩

/-- State after `settingDoc`'s first query populated the cache while
`multiLineMerge` was still `false`. -/
def settingState1 : CommentState :=
  (_getCommentParse settingGrammars settingState0 settingDoc).2

/-- State after `setSetting` switches `multiLineMerge` on. -/
def settingState2 : CommentState := setSetting [] settingState1 ⟨true, "en"⟩

/-- Witness document. -/
def wDoc : TextDocument := ⟨"file:w.ts", "ts"⟩

/-- Witness grammar registry, registering only language id `ts`. -/
def wGrammars : String → Option IGrammar :=
  fun languageId => if languageId = "ts" then some ⟨"source.ts"⟩ else none

/-- Witness document manager holding only `wDoc`. -/
def wDocuments : String → Option TextDocument :=
  fun uri => if uri = "file:w.ts" then some wDoc else none

/-- Witness query on `wDoc`. -/
def wQ : TextDocumentPositionParams := ⟨⟨"file:w.ts"⟩, ⟨1, 2⟩⟩

/-- Witness parse as constructed for `wDoc` with `multiLineMerge = false`. -/
def wParse : CommentParse := ⟨wDoc, ⟨"source.ts"⟩, false⟩

/-- Witness state whose cache already holds `wParse` for `wDoc`. -/
def wStateHit : CommentState :=
  ⟨⟨false, "en"⟩, fun k => if k = cacheKey wDoc then some wParse else none⟩

/-- Witness state with an empty cache. -/
def wStateMiss : CommentState := ⟨⟨false, "en"⟩, fun _ => none⟩

/-- Witness comment block with `humanize = true`. -/
def wBlock : ICommentBlock := ⟨⟨⟨1, 0⟩, ⟨1, 9⟩⟩, "do_it_now", true⟩

/-! Helper lemmas shared by the claim theorems. -/

/-- Cache hit: `_getCommentParse` returns the cached parse and leaves the
state unchanged. -/
theorem getCommentParse_hit (G : String → Option IGrammar) (s : CommentState)
    (d : TextDocument) (p : CommentParse)
    (h : s.commentParseCache (cacheKey d) = some p) :
    _getCommentParse G s d = (some p, s) := by
  simp [_getCommentParse, h]

/-- Cache miss without a grammar: `_getCommentParse` returns `none` and
leaves the state unchanged. -/
theorem getCommentParse_miss_noGrammar (G : String → Option IGrammar) (s : CommentState)
    (d : TextDocument) (h : s.commentParseCache (cacheKey d) = none)
    (hg : G d.languageId = none) :
    _getCommentParse G s d = (none, s) := by
  simp [_getCommentParse, h, hg]

/-- Cache miss with a grammar: `_getCommentParse` constructs a fresh parse
with the current `multiLineMerge` setting and stores it under the key. -/
theorem getCommentParse_miss_grammar (G : String → Option IGrammar) (s : CommentState)
    (d : TextDocument) (g : IGrammar) (h : s.commentParseCache (cacheKey d) = none)
    (hg : G d.languageId = some g) :
    _getCommentParse G s d =
      (some ⟨d, g, s.setting.multiLineMerge⟩,
        { s with commentParseCache := fun k =>
            if k = cacheKey d then some ⟨d, g, s.setting.multiLineMerge⟩
            else s.commentParseCache k }) := by
  simp [_getCommentParse, h, hg]

/-- Running `_getCommentParse` again on its own output state yields the same
parse and the same state. -/
theorem getCommentParse_stable (G : String → Option IGrammar) (s : CommentState)
    (d : TextDocument) :
    _getCommentParse G (_getCommentParse G s d).2 d =
      ((_getCommentParse G s d).1, (_getCommentParse G s d).2) := by
  rcases h : s.commentParseCache (cacheKey d) with _ | p
  · rcases hg : G d.languageId with _ | g
    · simp [_getCommentParse, h, hg]
    · simp [_getCommentParse, h, hg]
  · simp [_getCommentParse, h]

/-- Unknown uri: `getComment` returns `undefined` and leaves the state. -/
theorem getComment_unfold_nodoc (G : String → Option IGrammar)
    (D : String → Option TextDocument)
    (hp : TextDocumentPositionParams → Option ICommentBlock)
    (ct : CommentParse → Position → Option ICommentBlock)
    (tr : String → String) (s : CommentState) (q : TextDocumentPositionParams)
    (hD : D q.textDocument.uri = none) :
    getComment G D hp ct tr s q = (none, s) := by
  unfold getComment; rw [hD]

/-- No parse: `getComment` returns `undefined` with the parse step's state. -/
theorem getComment_unfold_noparse (G : String → Option IGrammar)
    (D : String → Option TextDocument)
    (hp : TextDocumentPositionParams → Option ICommentBlock)
    (ct : CommentParse → Position → Option ICommentBlock)
    (tr : String → String) (s : CommentState) (q : TextDocumentPositionParams)
    (d : TextDocument) (s1 : CommentState)
    (hD : D q.textDocument.uri = some d)
    (hP : _getCommentParse G s d = (none, s1)) :
    getComment G D hp ct tr s q = (none, s1) := by
  unfold getComment; rw [hD]; dsimp only; rw [hP]

/-- With a parse available, `getComment` reduces to the block selection
(host request first, pipeline second) followed by the translation branch. -/
theorem getComment_unfold_parse (G : String → Option IGrammar)
    (D : String → Option TextDocument)
    (hp : TextDocumentPositionParams → Option ICommentBlock)
    (ct : CommentParse → Position → Option ICommentBlock)
    (tr : String → String) (s : CommentState) (q : TextDocumentPositionParams)
    (d : TextDocument) (parse : CommentParse) (s1 : CommentState)
    (hD : D q.textDocument.uri = some d)
    (hP : _getCommentParse G s d = (some parse, s1)) :
    getComment G D hp ct tr s q =
      (match (match hp q with | some b => some b | none => ct parse q.position) with
        | none => (none, s1)
        | some b =>
          if b.humanize then
            (some { contents := [humanizeString b.comment ++ " => " ++ tr (humanizeString b.comment)],
                    range := b.range }, s1)
          else
            (some { contents := [tr b.comment], range := b.range }, s1)) := by
  unfold getComment; rw [hD]; dsimp only; rw [hP]

/-- State evolution of `getComment`: the state changes exactly as
`_getCommentParse` changes it for the queried document. -/
theorem getComment_state (G : String → Option IGrammar)
    (D : String → Option TextDocument)
    (hp : TextDocumentPositionParams → Option ICommentBlock)
    (ct : CommentParse → Position → Option ICommentBlock)
    (tr : String → String) (s : CommentState) (q : TextDocumentPositionParams) :
    (getComment G D hp ct tr s q).2 =
      match D q.textDocument.uri with
      | none => s
      | some d2 => (_getCommentParse G s d2).2 := by
  rcases hD : D q.textDocument.uri with _ | d
  · rw [getComment_unfold_nodoc G D hp ct tr s q hD]
  · rcases hr : _getCommentParse G s d with ⟨r, s1⟩
    cases r with
    | none =>
      rw [getComment_unfold_noparse G D hp ct tr s q d s1 hD hr]
      simp [hr]
    | some p =>
      have h1 := getComment_unfold_parse G D hp ct tr s q d p s1 hD hr
      rcases hb : (match hp q with | some b => some b | none => ct p q.position) with _ | b
      · simp only [hb] at h1
        rw [h1]
        simp [hr]
      · simp only [hb] at h1
        by_cases hbh : b.humanize = true <;> simp only [hbh] at h1 <;> rw [h1] <;> simp [hr]

/-- `_getCommentParse` never touches the settings record. -/
theorem getCommentParse_setting (G : String → Option IGrammar) (s : CommentState)
    (d : TextDocument) : (_getCommentParse G s d).2.setting = s.setting := by
  rcases h : s.commentParseCache (cacheKey d) with _ | p
  · rcases hg : G d.languageId with _ | g <;> simp [_getCommentParse, h, hg]
  · simp [_getCommentParse, h]

/-- `getComment` never touches the settings record. -/
theorem getComment_setting (G : String → Option IGrammar)
    (D : String → Option TextDocument)
    (hp : TextDocumentPositionParams → Option ICommentBlock)
    (ct : CommentParse → Position → Option ICommentBlock)
    (tr : String → String) (s : CommentState) (q : TextDocumentPositionParams) :
    (getComment G D hp ct tr s q).2.setting = s.setting := by
  rw [getComment_state G D hp ct tr s q]
  rcases hD : D q.textDocument.uri with _ | d
  · rfl
  · exact getCommentParse_setting G s d

/-- JavaScript `findIndex` followed by `splice(index, 1)` removes exactly the
first occurrence, i.e. it is `List.erase`. -/
theorem removeFirst_eq_erase (lang : String) (l : List String) :
    (match findIndex (fun r => r == lang) l with
      | some index => l.eraseIdx index
      | none => l) = l.erase lang := by
  induction l with
  | nil => rfl
  | cons a l ih =>
    by_cases h : a = lang
    · subst h
      simp [findIndex, List.erase_cons]
    · rw [List.erase_cons_tail]
      · simp only [findIndex, beq_iff_eq, h, ite_false]
        cases hfi : findIndex (fun r => r == lang) l with
        | none => rw [hfi] at ih; simpa using congrArg (a :: ·) ih
        | some i => rw [hfi] at ih; simpa [List.eraseIdx] using congrArg (a :: ·) ih
      · simp [h]

/-- `updateLanguageList` is: erase the first occurrence, cons at the front. -/
theorem updateLanguageList_eq_cons_erase (lang : String) (l : List String) :
    updateLanguageList lang l = lang :: l.erase lang := by
  unfold updateLanguageList
  exact congrArg (lang :: ·) (removeFirst_eq_erase lang l)

/-! Claim theorems. -/

/-- C1: for every hover/translate query that reaches extraction, the core
first asks the hosting editor for a selection-derived block (`hostSelection`,
the `selectionContains` request) and runs the `computeText` pipeline only
when the host returns none; a host-supplied block fully determines the
result regardless of the pipeline.  The host handler itself supplies a block
only when the active editor's URI matches the query and some non-empty
selection contains the position, and the block is exactly that selection's
range and text. -/
theorem getComment_host_selection_priority (G : String → Option IGrammar)
    (D : String → Option TextDocument)
    (hp : TextDocumentPositionParams → Option ICommentBlock)
    (ct : CommentParse → Position → Option ICommentBlock)
    (tr : String → String) (s : CommentState) (q : TextDocumentPositionParams)
    (d : TextDocument) (parse : CommentParse) (s1 : CommentState)
    (hD : D q.textDocument.uri = some d)
    (hP : _getCommentParse G s d = (some parse, s1)) :
    (∀ b, hp q = some b →
      (∀ ct2, getComment G D hp ct2 tr s q = getComment G D hp ct tr s q) ∧
      getComment G D hp ct tr s q =
        (if b.humanize then
          (some ⟨[humanizeString b.comment ++ " => " ++ tr (humanizeString b.comment)], b.range⟩, s1)
        else (some ⟨[tr b.comment], b.range⟩, s1))) ∧
    (hp q = none → ∀ b2, ct parse q.position = some b2 →
      getComment G D hp ct tr s q =
        (if b2.humanize then
          (some ⟨[humanizeString b2.comment ++ " => " ++ tr (humanizeString b2.comment)], b2.range⟩, s1)
        else (some ⟨[tr b2.comment], b2.range⟩, s1))) ∧
    (hp q = none → ct parse q.position = none →
      getComment G D hp ct tr s q = (none, s1)) ∧
    (∀ ed qq bb, selectionContains ed qq = some bb →
      ∃ e, ed = some e ∧ e.uri = qq.textDocument.uri ∧
        ∃ sel, sel ∈ e.selections ∧ sel.isEmptySel = false ∧
          sel.containsPos ⟨qq.position.line, qq.position.character⟩ = true ∧
          bb = { range := ⟨sel.start, sel.«end»⟩, comment := e.getText sel }) := by
  refine ⟨?_, ?_, ?_, ?_⟩
  · intro b hb
    have h1 := getComment_unfold_parse G D hp ct tr s q d parse s1 hD hP
    simp only [hb] at h1
    refine ⟨?_, h1⟩
    intro ct2
    have h2 := getComment_unfold_parse G D hp ct2 tr s q d parse s1 hD hP
    simp only [hb] at h2
    rw [h1, h2]
  · intro hb b2 hc
    have h1 := getComment_unfold_parse G D hp ct tr s q d parse s1 hD hP
    simp only [hb, hc] at h1
    exact h1
  · intro hb hc
    have h1 := getComment_unfold_parse G D hp ct tr s q d parse s1 hD hP
    simp only [hb, hc] at h1
    exact h1
  · intro ed qq bb hsc
    unfold selectionContains at hsc
    cases ed with
    | none => cases hsc
    | some e =>
      dsimp only at hsc
      by_cases hu : e.uri = qq.textDocument.uri
      · rw [if_pos hu] at hsc
        cases hf : e.selections.find? (fun selection =>
            !selection.isEmptySel && selection.containsPos
              ⟨qq.position.line, qq.position.character⟩) with
        | none =>
          rw [hf] at hsc
          cases hsc
        | some sel =>
          rw [hf] at hsc
          have hmem := List.mem_of_find?_eq_some hf
          have hpred := List.find?_some hf
          rw [Bool.and_eq_true, Bool.not_eq_true'] at hpred
          exact ⟨e, rfl, hu, sel, hmem, hpred.1, hpred.2, (Option.some.inj hsc).symm⟩
      · rw [if_neg hu] at hsc
        cases hsc

/-- Witness for C1: with a host-supplied selection block for `wQ`, the
result does not depend on the pipeline (here: pipeline that finds nothing
versus pipeline that finds another block). -/
theorem getComment_host_selection_priority_witness :
    wDocuments wQ.textDocument.uri = some wDoc ∧
    getComment wGrammars wDocuments (fun _ => some wBlock) (fun _ _ => none)
        (fun t => t) wStateHit wQ =
      getComment wGrammars wDocuments (fun _ => some wBlock)
        (fun _ _ => some ⟨⟨⟨9, 9⟩, ⟨9, 9⟩⟩, "other", false⟩) (fun t => t) wStateHit wQ :=
  ⟨rfl,
    ((getComment_host_selection_priority wGrammars wDocuments (fun _ => some wBlock)
        (fun _ _ => some ⟨⟨⟨9, 9⟩, ⟨9, 9⟩⟩, "other", false⟩) (fun t => t) wStateHit wQ
        wDoc wParse wStateHit rfl rfl).1 wBlock rfl).1 (fun _ _ => none)⟩

/-- C2 counterexample: the cache key is the string `languageId ++ "-" ++ uri`,
so the open documents (`uri = "b-c"`, language `a`) and (`uri = "c"`,
language `a-b`) share the key `a-b-c`.  After a first query on the former
populates the cache, a query on the latter — whose language id `a-b` has NO
registered grammar — returns a hover and runs extraction and translation,
refuting the claim that such queries always return an absent result. -/
theorem getComment_noGrammar_collision_counterexample :
    collideDocuments "c" = some ⟨"c", "a-b"⟩ ∧
    collideGrammars "a-b" = none ∧
    (getComment collideGrammars collideDocuments (fun _ => none) collideComputeText
      (fun t => t) collideState1 ⟨⟨"c"⟩, ⟨0, 0⟩⟩).1 =
      some ⟨["hello"], ⟨⟨0, 0⟩, ⟨0, 5⟩⟩⟩ := by
  refine ⟨rfl, rfl, ?_⟩
  rfl

/-- C2 (amended): for every document whose language id has no registered
grammar, provided no colliding cache entry occupies the document's key
(in particular on its first query after open, edit or close),
`_getCommentParse` returns `undefined` and `getComment` returns `undefined`
for every position, every host, every pipeline and every translator — so
extraction and translation are never attempted. -/
theorem getComment_noGrammar_absent (G : String → Option IGrammar) (s : CommentState)
    (d : TextDocument)
    (hc : s.commentParseCache (cacheKey d) = none) (hg : G d.languageId = none) :
    _getCommentParse G s d = (none, s) ∧
    (∀ (D : String → Option TextDocument) hp ct tr q, D q.textDocument.uri = some d →
      getComment G D hp ct tr s q = (none, s)) := by
  refine ⟨getCommentParse_miss_noGrammar G s d hc hg, fun D hp ct tr q hD => ?_⟩
  exact getComment_unfold_noparse G D hp ct tr s q d s hD
    (getCommentParse_miss_noGrammar G s d hc hg)

/-- Witness for the amended C2: a `py` document in an empty-cache state (no
grammar registered for `py`) yields no parse. -/
theorem getComment_noGrammar_absent_witness :
    wStateMiss.commentParseCache (cacheKey ⟨"file:x.py", "py"⟩) = none ∧
    wGrammars "py" = none ∧
    _getCommentParse wGrammars wStateMiss ⟨"file:x.py", "py"⟩ = (none, wStateMiss) :=
  ⟨rfl, rfl, (getComment_noGrammar_absent wGrammars wStateMiss ⟨"file:x.py", "py"⟩ rfl rfl).1⟩

/-- C3: the parse cache is keyed by the document's `(languageId, uri)` key
string, populated lazily on the first query (touching only that key),
returned as-is on a hit, removed wholesale by `_removeCommentParse` (the
handler for both content change and close), and mutated by no other
operation: `setSetting` leaves it unchanged and `getComment` changes it only
through `_getCommentParse` on the queried document. -/
theorem commentParseCache_lifecycle (G : String → Option IGrammar) (s : CommentState)
    (d : TextDocument) :
    (s.commentParseCache (cacheKey d) = none →
      (G d.languageId = none → _getCommentParse G s d = (none, s)) ∧
      (∀ g, G d.languageId = some g →
        (_getCommentParse G s d).1 = some ⟨d, g, s.setting.multiLineMerge⟩ ∧
        (_getCommentParse G s d).2.commentParseCache (cacheKey d) =
          some ⟨d, g, s.setting.multiLineMerge⟩ ∧
        (∀ k, k ≠ cacheKey d →
          (_getCommentParse G s d).2.commentParseCache k = s.commentParseCache k))) ∧
    (∀ p, s.commentParseCache (cacheKey d) = some p → _getCommentParse G s d = (some p, s)) ∧
    ((_removeCommentParse s d).commentParseCache (cacheKey d) = none ∧
      (∀ k, k ≠ cacheKey d →
        (_removeCommentParse s d).commentParseCache k = s.commentParseCache k)) ∧
    (∀ langs ns, (setSetting langs s ns).commentParseCache = s.commentParseCache) ∧
    (∀ (D : String → Option TextDocument) hp ct tr q,
      (getComment G D hp ct tr s q).2.commentParseCache =
        (match D q.textDocument.uri with
          | none => s
          | some d2 => (_getCommentParse G s d2).2).commentParseCache) := by
  refine ⟨?_, ?_, ?_, ?_, ?_⟩
  · intro hc
    refine ⟨fun hg => getCommentParse_miss_noGrammar G s d hc hg, fun g hg => ?_⟩
    rw [getCommentParse_miss_grammar G s d g hc hg]
    refine ⟨rfl, ?_, fun k hk => ?_⟩
    · simp
    · simp [hk]
  · intro p hc
    exact getCommentParse_hit G s d p hc
  · refine ⟨?_, fun k hk => ?_⟩
    · simp [_removeCommentParse]
    · simp [_removeCommentParse, hk]
  · intro langs ns
    by_cases h : ns.preferredLanguage = "" <;> simp [setSetting, h]
  · intro D hp ct tr q
    rw [getComment_state G D hp ct tr s q]

/-- Witness for C3: on a miss the cache is populated for `wDoc`, and a
removal empties that key again. -/
theorem commentParseCache_lifecycle_witness :
    wStateMiss.commentParseCache (cacheKey wDoc) = none ∧
    wGrammars wDoc.languageId = some ⟨"source.ts"⟩ ∧
    (_getCommentParse wGrammars wStateMiss wDoc).2.commentParseCache (cacheKey wDoc) =
      some ⟨wDoc, ⟨"source.ts"⟩, false⟩ ∧
    (_removeCommentParse wStateHit wDoc).commentParseCache (cacheKey wDoc) = none :=
  ⟨rfl, rfl,
    (((commentParseCache_lifecycle wGrammars wStateMiss wDoc).1 rfl).2 ⟨"source.ts"⟩ rfl).2.1,
    (commentParseCache_lifecycle wGrammars wStateHit wDoc).2.2.1.1⟩

/-- C4 counterexample: after a document's parse is cached with
`multiLineMerge = false` and `setSetting` then switches the setting to
`true`, the next extraction on that document still uses the cached parse
constructed with `false` — refuting "every subsequent extraction on any open
document observes the new value". -/
theorem setSetting_cached_parse_counterexample :
    settingState2.setting.multiLineMerge = true ∧
    (_getCommentParse settingGrammars settingState2 settingDoc).1 =
      some ⟨settingDoc, ⟨"source.js"⟩, false⟩ := by
  refine ⟨rfl, ?_⟩
  rfl

/-- C4 (amended): the settings record is process-wide with no per-document
override and is mutated only by `setSetting` (extraction and cache removal
never change it); after `setSetting` changes `multiLineMerge`, an extraction
observes the new value exactly when the document has no cached parse (its
first query, or after a content change or close) — a cached parse keeps the
`multiLineMerge` captured at its construction. -/
theorem setting_process_wide (G : String → Option IGrammar) (s : CommentState)
    (d : TextDocument) :
    (∀ (D : String → Option TextDocument) hp ct tr q,
      (getComment G D hp ct tr s q).2.setting = s.setting) ∧
    (_removeCommentParse s d).setting = s.setting ∧
    (s.commentParseCache (cacheKey d) = none → ∀ g, G d.languageId = some g →
      (_getCommentParse G s d).1 = some ⟨d, g, s.setting.multiLineMerge⟩) ∧
    (∀ p, s.commentParseCache (cacheKey d) = some p →
      (_getCommentParse G s d).1 = some p ∧ (_getCommentParse G s d).2 = s) := by
  refine ⟨fun D hp ct tr q => getComment_setting G D hp ct tr s q, rfl, ?_, ?_⟩
  · intro hc g hg
    rw [getCommentParse_miss_grammar G s d g hc hg]
  · intro p hc
    rw [getCommentParse_hit G s d p hc]
    exact ⟨rfl, rfl⟩

/-- Witness for the amended C4: in the changed-settings state, a fresh
(uncached) document observes `multiLineMerge = true`, while the cached
`wParse` is returned unchanged. -/
theorem setting_process_wide_witness :
    settingState2.commentParseCache (cacheKey ⟨"file:b.js", "js"⟩) = none ∧
    (_getCommentParse settingGrammars settingState2 ⟨"file:b.js", "js"⟩).1 =
      some ⟨⟨"file:b.js", "js"⟩, ⟨"source.js"⟩, true⟩ ∧
    wStateHit.commentParseCache (cacheKey wDoc) = some wParse ∧
    (_getCommentParse wGrammars wStateHit wDoc).1 = some wParse :=
  ⟨rfl,
    (setting_process_wide settingGrammars settingState2 ⟨"file:b.js", "js"⟩).2.2.1
      rfl ⟨"source.js"⟩ rfl,
    rfl,
    ((setting_process_wide wGrammars wStateHit wDoc).2.2.2 wParse rfl).1⟩

/-- C5: the three failure conditions — unknown document, no grammar for the
language id (with an unoccupied cache key), and no comment block found by
host or pipeline — are each represented as an absent (`none`) result of
`getComment`, never as a thrown fault: the embedding is a total function
into `Option Hover`. -/
theorem getComment_failures_absent (G : String → Option IGrammar)
    (D : String → Option TextDocument)
    (hp : TextDocumentPositionParams → Option ICommentBlock)
    (ct : CommentParse → Position → Option ICommentBlock)
    (tr : String → String) (s : CommentState) (q : TextDocumentPositionParams) :
    (D q.textDocument.uri = none → getComment G D hp ct tr s q = (none, s)) ∧
    (∀ d, D q.textDocument.uri = some d →
      s.commentParseCache (cacheKey d) = none → G d.languageId = none →
      getComment G D hp ct tr s q = (none, s)) ∧
    (∀ d parse s1, D q.textDocument.uri = some d →
      _getCommentParse G s d = (some parse, s1) →
      hp q = none → ct parse q.position = none →
      getComment G D hp ct tr s q = (none, s1)) := by
  refine ⟨?_, ?_, ?_⟩
  · intro hD
    exact getComment_unfold_nodoc G D hp ct tr s q hD
  · intro d hD hc hg
    exact getComment_unfold_noparse G D hp ct tr s q d s hD
      (getCommentParse_miss_noGrammar G s d hc hg)
  · intro d parse s1 hD hP hhp hct
    have h1 := getComment_unfold_parse G D hp ct tr s q d parse s1 hD hP
    simp only [hhp, hct] at h1
    exact h1

/-- Witness for C5: an unknown uri and a no-match query both yield `none`. -/
theorem getComment_failures_absent_witness :
    wDocuments "file:absent" = none ∧
    getComment wGrammars wDocuments (fun _ => none) (fun _ _ => none) (fun t => t)
      wStateMiss ⟨⟨"file:absent"⟩, ⟨0, 0⟩⟩ = (none, wStateMiss) ∧
    getComment wGrammars wDocuments (fun _ => none) (fun _ _ => none) (fun t => t)
      wStateHit wQ = (none, wStateHit) :=
  ⟨rfl,
    (getComment_failures_absent wGrammars wDocuments (fun _ => none) (fun _ _ => none)
      (fun t => t) wStateMiss ⟨⟨"file:absent"⟩, ⟨0, 0⟩⟩).1 rfl,
    (getComment_failures_absent wGrammars wDocuments (fun _ => none) (fun _ _ => none)
      (fun t => t) wStateHit wQ).2.2 wDoc wParse wStateHit rfl rfl rfl rfl⟩

/-- C6: whenever the resolved block has `humanize = true`, the text handed
to the translator is the word-split (`humanizeString`) form of the block's
comment — the hover shows `humanized => tr humanized` for every translator
`tr` — and a block with `humanize = false` is translated verbatim; the
word-split form of `do_it_now` is `do it now`. -/
theorem getComment_humanize_translation (G : String → Option IGrammar)
    (D : String → Option TextDocument)
    (hp : TextDocumentPositionParams → Option ICommentBlock)
    (ct : CommentParse → Position → Option ICommentBlock)
    (tr : String → String) (s : CommentState) (q : TextDocumentPositionParams)
    (d : TextDocument) (parse : CommentParse) (s1 : CommentState) (b : ICommentBlock)
    (hD : D q.textDocument.uri = some d)
    (hP : _getCommentParse G s d = (some parse, s1))
    (hb : hp q = some b ∨ (hp q = none ∧ ct parse q.position = some b)) :
    (b.humanize = true →
      getComment G D hp ct tr s q =
        (some ⟨[humanizeString b.comment ++ " => " ++ tr (humanizeString b.comment)], b.range⟩, s1)) ∧
    (b.humanize = false →
      getComment G D hp ct tr s q = (some ⟨[tr b.comment], b.range⟩, s1)) ∧
    humanizeString "do_it_now" = "do it now" := by
  have h1 := getComment_unfold_parse G D hp ct tr s q d parse s1 hD hP
  rcases hb with hb | ⟨hb1, hb2⟩
  · simp only [hb] at h1
    refine ⟨fun hbh => ?_, fun hbh => ?_, by decide⟩
    · simp only [hbh, if_true] at h1
      exact h1
    · simp only [hbh] at h1
      exact h1
  · simp only [hb1, hb2] at h1
    refine ⟨fun hbh => ?_, fun hbh => ?_, by decide⟩
    · simp only [hbh, if_true] at h1
      exact h1
    · simp only [hbh] at h1
      exact h1

/-- Witness for C6: the pipeline reports `do_it_now` with `humanize = true`
at `wQ`, and the identity translator receives `do it now`. -/
theorem getComment_humanize_translation_witness :
    wBlock.humanize = true ∧
    getComment wGrammars wDocuments (fun _ => none) (fun _ _ => some wBlock)
        (fun t => t) wStateHit wQ =
      (some ⟨["do it now => do it now"], ⟨⟨1, 0⟩, ⟨1, 9⟩⟩⟩, wStateHit) :=
  ⟨rfl,
    (getComment_humanize_translation wGrammars wDocuments (fun _ => none)
      (fun _ _ => some wBlock) (fun t => t) wStateHit wQ wDoc wParse wStateHit wBlock
      rfl rfl (Or.inr ⟨rfl, rfl⟩)).1 rfl⟩

/-- C7: re-running `getComment` on the same unchanged document, position and
settings yields byte-identical output and the identical state, and the
second query's `_getCommentParse` finds the first query's parse in the cache
without changing the state. -/
theorem getComment_idempotent (G : String → Option IGrammar)
    (D : String → Option TextDocument)
    (hp : TextDocumentPositionParams → Option ICommentBlock)
    (ct : CommentParse → Position → Option ICommentBlock)
    (tr : String → String) (s : CommentState) (q : TextDocumentPositionParams) :
    getComment G D hp ct tr (getComment G D hp ct tr s q).2 q =
      getComment G D hp ct tr s q ∧
    (∀ d, D q.textDocument.uri = some d →
      _getCommentParse G (getComment G D hp ct tr s q).2 d =
        ((_getCommentParse G s d).1, (getComment G D hp ct tr s q).2)) := by
  rcases hD : D q.textDocument.uri with _ | d
  · have h1 := getComment_unfold_nodoc G D hp ct tr s q hD
    refine ⟨?_, ?_⟩
    · rw [h1]
      exact h1
    · intro d' hd'
      cases hd'
  · rcases hr : _getCommentParse G s d with ⟨r, s1⟩
    have hst : _getCommentParse G s1 d = (r, s1) := by
      have h := getCommentParse_stable G s d
      rw [hr] at h
      exact h
    cases r with
    | none =>
      have h1 := getComment_unfold_noparse G D hp ct tr s q d s1 hD hr
      have h2 := getComment_unfold_noparse G D hp ct tr s1 q d s1 hD hst
      refine ⟨?_, ?_⟩
      · rw [h1]
        exact h2
      · intro d' hd'
        obtain rfl := Option.some.inj hd'
        rw [h1, hr]
        exact hst
    | some p =>
      have h1 := getComment_unfold_parse G D hp ct tr s q d p s1 hD hr
      have h2 := getComment_unfold_parse G D hp ct tr s1 q d p s1 hD hst
      rcases hb : (match hp q with | some b => some b | none => ct p q.position) with _ | b
      all_goals simp only [hb] at h1 h2
      · refine ⟨?_, ?_⟩
        · rw [h1]
          exact h2
        · intro d' hd'
          obtain rfl := Option.some.inj hd'
          rw [h1, hr]
          exact hst
      · by_cases hbh : b.humanize = true
        all_goals simp only [hbh] at h1 h2
        · refine ⟨?_, ?_⟩
          · rw [h1]
            exact h2
          · intro d' hd'
            obtain rfl := Option.some.inj hd'
            rw [h1, hr]
            exact hst
        · refine ⟨?_, ?_⟩
          · rw [h1]
            exact h2
          · intro d' hd'
            obtain rfl := Option.some.inj hd'
            rw [h1, hr]
            exact hst

/-- Witness for C7: after the first query on `wDoc` from an empty cache, a
second parse lookup returns the very parse computed by the first query,
leaving the state untouched. -/
theorem getComment_idempotent_witness :
    wDocuments wQ.textDocument.uri = some wDoc ∧
    _getCommentParse wGrammars
        (getComment wGrammars wDocuments (fun _ => none) (fun _ _ => none)
          (fun t => t) wStateMiss wQ).2 wDoc =
      ((_getCommentParse wGrammars wStateMiss wDoc).1,
        (getComment wGrammars wDocuments (fun _ => none) (fun _ _ => none)
          (fun t => t) wStateMiss wQ).2) :=
  ⟨rfl,
    (getComment_idempotent wGrammars wDocuments (fun _ => none) (fun _ _ => none)
      (fun t => t) wStateMiss wQ).2 wDoc rfl⟩

/-- C8: when the new setting's `preferredLanguage` is absent (falsy), the
previously stored one is used in its place; after every call the stored
`preferredLanguage` is the `value` of the (first) registered language whose
`name` equals that name, or `"en"` when no registered language matches; the
cache is untouched and `multiLineMerge` is overwritten. -/
theorem setSetting_preferredLanguage_spec (languages : List LanguageEntry)
    (s : CommentState) (newSetting : ICommentTranslateSettings) :
    (newSetting.preferredLanguage = "" →
      setSetting languages s newSetting =
        setSetting languages s { newSetting with preferredLanguage := s.setting.preferredLanguage }) ∧
    (setSetting languages s newSetting).setting.multiLineMerge = newSetting.multiLineMerge ∧
    (setSetting languages s newSetting).commentParseCache = s.commentParseCache ∧
    ((∃ l ∈ languages,
        l.name = (if newSetting.preferredLanguage = "" then s.setting.preferredLanguage
                  else newSetting.preferredLanguage) ∧
        (setSetting languages s newSetting).setting.preferredLanguage = l.value) ∨
      ((∀ l ∈ languages,
        l.name ≠ (if newSetting.preferredLanguage = "" then s.setting.preferredLanguage
                  else newSetting.preferredLanguage)) ∧
      (setSetting languages s newSetting).setting.preferredLanguage = "en")) := by
  refine ⟨?_, ?_, ?_, ?_⟩
  · intro h
    simp [setSetting, h]
  · by_cases h : newSetting.preferredLanguage = "" <;> simp [setSetting, h]
  · by_cases h : newSetting.preferredLanguage = "" <;> simp [setSetting, h]
  · by_cases h : newSetting.preferredLanguage = ""
    · rw [if_pos h]
      cases hf : languages.find? (fun element => element.name == s.setting.preferredLanguage) with
      | some l =>
        exact Or.inl ⟨l, List.mem_of_find?_eq_some hf,
          by simpa using List.find?_some hf, by simp [setSetting, h, hf]⟩
      | none =>
        exact Or.inr ⟨fun l hl => by simpa using List.find?_eq_none.mp hf l hl,
          by simp [setSetting, h, hf]⟩
    · rw [if_neg h]
      cases hf : languages.find? (fun element => element.name == newSetting.preferredLanguage) with
      | some l =>
        exact Or.inl ⟨l, List.mem_of_find?_eq_some hf,
          by simpa using List.find?_some hf, by simp [setSetting, h, hf]⟩
      | none =>
        exact Or.inr ⟨fun l hl => by simpa using List.find?_eq_none.mp hf l hl,
          by simp [setSetting, h, hf]⟩

/-- Witness for C8: an empty `preferredLanguage` falls back to the stored
name `English`, and both calls agree. -/
theorem setSetting_preferredLanguage_spec_witness :
    (⟨true, ""⟩ : ICommentTranslateSettings).preferredLanguage = "" ∧
    setSetting [⟨"English", "en"⟩] ⟨⟨false, "English"⟩, fun _ => none⟩ ⟨true, ""⟩ =
      setSetting [⟨"English", "en"⟩] ⟨⟨false, "English"⟩, fun _ => none⟩ ⟨true, "English"⟩ :=
  ⟨rfl,
    (setSetting_preferredLanguage_spec [⟨"English", "en"⟩]
      ⟨⟨false, "English"⟩, fun _ => none⟩ ⟨true, ""⟩).1 rfl⟩

/-- C9: `updateLanguageList` places the selected language at index 0; on a
duplicate-free list the result is still duplicate-free, the selected
language occurs exactly once, and every other element is preserved in
order. -/
theorem updateLanguageList_spec (selectedLanguage : String) (l : List String) :
    (updateLanguageList selectedLanguage l).head? = some selectedLanguage ∧
    (l.Nodup →
      (updateLanguageList selectedLanguage l).Nodup ∧
      (updateLanguageList selectedLanguage l).count selectedLanguage = 1 ∧
      (updateLanguageList selectedLanguage l).filter (fun r => r ≠ selectedLanguage) =
        l.filter (fun r => r ≠ selectedLanguage)) := by
  rw [updateLanguageList_eq_cons_erase]
  refine ⟨rfl, fun hnd => ⟨?_, ?_, ?_⟩⟩
  · exact List.Nodup.cons (hnd.not_mem_erase) (hnd.erase _)
  · rw [List.count_cons_self, hnd.erase_eq_filter]
    simp [List.count_eq_zero]
  · rw [hnd.erase_eq_filter]
    simp only [List.filter_cons]
    rw [if_neg (by simp)]
    rw [List.filter_filter]
    apply List.filter_congr
    intro x _
    by_cases hx : x = selectedLanguage <;> simp [hx, bne]

/-- Witness for C9 on the duplicate-free list `[en, fr, de]`. -/
theorem updateLanguageList_spec_witness :
    (["en", "fr", "de"] : List String).Nodup ∧
    (updateLanguageList "fr" ["en", "fr", "de"]).head? = some "fr" ∧
    (updateLanguageList "fr" ["en", "fr", "de"]).Nodup :=
  ⟨by decide, (updateLanguageList_spec "fr" ["en", "fr", "de"]).1,
    ((updateLanguageList_spec "fr" ["en", "fr", "de"]).2 (by decide)).1⟩

/-- C10: when the first translation response equals the (non-empty) input —
Google rejected the string — `getTranslationPromise` issues a second
translation of the humanized input, but resolves with `camelcase` applied to
the FIRST response's text (the input), discarding the second result; in that
situation it rejects exactly when the second response's text is empty (the
first's being the non-empty input). -/
theorem getTranslationPromise_equal_input (tr camel : String → String)
    (selectedText : String) (selection : Selection)
    (h1 : tr selectedText = selectedText) (h2 : selectedText ≠ "") :
    (getTranslationPromise tr camel selectedText selection).2 =
      [selectedText, humanizeString selectedText] ∧
    (tr (humanizeString selectedText) ≠ "" →
      (getTranslationPromise tr camel selectedText selection).1 =
        .ok (selection, camel selectedText)) ∧
    ((∃ e, (getTranslationPromise tr camel selectedText selection).1 = .error e) ↔
      tr (humanizeString selectedText) = "") := by
  by_cases h3 : tr (humanizeString selectedText) = "" <;>
    simp [getTranslationPromise, h1, h2, h3]

/-- Witness for C10: the identity translator returns the input unchanged, so
a second request for `do it now` is issued and the first text is resolved. -/
theorem getTranslationPromise_equal_input_witness :
    (fun t => t) "do_it_now" = "do_it_now" ∧
    ("do_it_now" : String) ≠ "" ∧
    (getTranslationPromise (fun t => t) (fun t => t) "do_it_now" ⟨⟨0, 0⟩, ⟨0, 0⟩⟩).2 =
      ["do_it_now", humanizeString "do_it_now"] :=
  ⟨rfl, by decide,
    (getTranslationPromise_equal_input (fun t => t) (fun t => t) "do_it_now"
      ⟨⟨0, 0⟩, ⟨0, 0⟩⟩ rfl (by decide)).1⟩
